import Mathlib

set_option maxRecDepth 8000

/-!
Shallow embedding of the `rust-dns-client` DNS wire codec.

Strings are modelled as lists of byte values (`List Nat`); bit sequences
(`bitvec`'s `BitVec<usize, Msb0>`) are modelled as `List Bool` in MSB-first
order.  `nom`'s bit-level input `(&[u8], usize)` is modelled as
`BitInput := List Nat × Nat` (byte buffer, bit offset).  Rust `panic!`
sites (`unwrap()`, `assert!`) are modelled as distinguished error
constructors, and fallible functions return `Except Err`.
-/

/-- Fold a MSB-first bit sequence into the natural number it denotes. -/
def bitsToNat (bs : List Bool) : Nat :=
  bs.foldl (fun acc b => 2 * acc + (if b then 1 else 0)) 0

/-- `natToBits w n` is the `w`-bit MSB-first representation of `n % 2 ^ w`;
this models `view_bits::<Msb0>()` on a `w`-bit unsigned integer. -/
def natToBits : Nat → Nat → List Bool
  | 0, _ => []
  | w + 1, n => decide (n / 2 ^ w % 2 = 1) :: natToBits w n

/-- The bit stream of a byte buffer, MSB-first within each byte. -/
def bitsOfBytes : List Nat → List Bool
  | [] => []
  | b :: rest => natToBits 8 b ++ bitsOfBytes rest

/-- Pack a bit sequence into bytes, zero-padding the final byte; this models
reading a `BitVec<usize, Msb0>` to a `Vec<u8>` (`bv.read_to_end`). -/
def bitsToBytes : List Bool → List Nat
  | [] => []
  | b1 :: b2 :: b3 :: b4 :: b5 :: b6 :: b7 :: b8 :: rest =>
    bitsToNat [b1, b2, b3, b4, b5, b6, b7, b8] :: bitsToBytes rest
  | bs => [bitsToNat (bs ++ List.replicate (8 - bs.length) false)]

/-- `nom`'s bit-level input type `(&[u8], usize)`: byte buffer plus bit offset. -/
abbrev BitInput := List Nat × Nat

/-- `nom::bits::complete::take(c)`: read `c` bits MSB-first starting at the
current bit offset; fail when fewer than `c` bits remain. -/
def takeBits (c : Nat) (i : BitInput) : Option (BitInput × Nat) :=
  if 8 * i.1.length < c + i.2 then none
  else some ((i.1.drop ((i.2 + c) / 8), (i.2 + c) % 8),
             bitsToNat (((bitsOfBytes i.1).drop i.2).take c))

/-- `parser::take_u16`: 16 bits, MSB-first. -/
def take_u16 (i : BitInput) : Option (BitInput × Nat) := takeBits 16 i

/-- `parser::take_nibble`: 4 bits. -/
def take_nibble (i : BitInput) : Option (BitInput × Nat) := takeBits 4 i

/-- `parser::take_bit`: one bit, as a boolean (`bit != 0`). -/
def take_bit (i : BitInput) : Option (BitInput × Bool) :=
  match takeBits 1 i with
  | none => none
  | some (i, b) => some (i, b != 0)

/-- The unread bit stream of a `BitInput`. -/
def absBits (i : BitInput) : List Bool := (bitsOfBytes i.1).drop i.2

/-- Failure outcomes of the codec.  `nameTooLong` / `labelTooLong` model the
validation errors of `Message::new`, `Question::as_bitvec` and
`Entry::as_bitvec`; `u8Panic` models the `u8::try_from(len).unwrap()` panic in
`Entry::as_bitvec`; `unwrapPanic` models a panicking `.unwrap()` on a parse
result; `assertPanic` models the `assert!(!z)` abort in
`MessageHeader::deserialize`; `parseErr` is a `nom`-level error returned (not
panicked) by `Question::parse_label`; `notUtf8` marks byte sequences that are
not valid UTF-8, which cannot arise from a real `&str` (our byte-list model of
strings is a superset of the `&str` values). -/
inductive Err
  | nameTooLong
  | labelTooLong
  | u8Panic
  | unwrapPanic
  | assertPanic
  | parseErr
  | notUtf8
deriving DecidableEq

instance {ε α : Type} [DecidableEq ε] [DecidableEq α] : DecidableEq (Except ε α) :=
  fun x y =>
    match x, y with
    | .ok a, .ok b =>
      if h : a = b then .isTrue (by rw [h])
      else .isFalse (fun hc => h (by cases hc; rfl))
    | .error a, .error b =>
      if h : a = b then .isTrue (by rw [h])
      else .isFalse (fun hc => h (by cases hc; rfl))
    | .ok _, .error _ => .isFalse (fun hc => Except.noConfusion hc)
    | .error _, .ok _ => .isFalse (fun hc => Except.noConfusion hc)

/-- `Except.isOk` as a boolean, for stating success without spelling values. -/
def exceptIsOk {ε α : Type} : Except ε α → Bool
  | .ok _ => true
  | .error _ => false

/-- `rr::record_type::RecordType`: the closed set of parseable RR type codes. -/
inductive RecordType
  | A | NS | MD | MF | CNAME | SOA | MB | MG | MR | NULL
  | WKS | PTR | HINFO | MINFO | MX | TXT | AAAA
deriving DecidableEq

/-- `TryFrom<u16> for RecordType`. -/
def RecordType.try_from (value : Nat) : Option RecordType :=
  match value with
  | 1 => some .A
  | 2 => some .NS
  | 3 => some .MD
  | 4 => some .MF
  | 5 => some .CNAME
  | 6 => some .SOA
  | 7 => some .MB
  | 8 => some .MG
  | 9 => some .MR
  | 10 => some .NULL
  | 11 => some .WKS
  | 12 => some .PTR
  | 13 => some .HINFO
  | 14 => some .MINFO
  | 15 => some .MX
  | 16 => some .TXT
  | 28 => some .AAAA
  | _ => none

/-- `From<RecordType> for u16` (via the hand-written `&u16` table). -/
def RecordType.into_u16 : RecordType → Nat
  | .A => 1
  | .NS => 2
  | .MD => 3
  | .MF => 4
  | .CNAME => 5
  | .SOA => 6
  | .MB => 7
  | .MG => 8
  | .MR => 9
  | .NULL => 10
  | .WKS => 11
  | .PTR => 12
  | .HINFO => 13
  | .MINFO => 14
  | .MX => 15
  | .TXT => 16
  | .AAAA => 28

/-- `RecordType::as_bitslice`: the 16-bit MSB-first pattern of the wire code. -/
def RecordType.as_bitslice (v : RecordType) : List Bool := natToBits 16 v.into_u16

/-- `rr::record_class::Class` (named `RecordClass` here because Mathlib already
declares a `Class`). -/
inductive RecordClass
  | IN | CS | CH | HS
deriving DecidableEq

/-- `TryFrom<u16> for Class`. -/
def RecordClass.try_from (value : Nat) : Option RecordClass :=
  match value with
  | 1 => some .IN
  | 2 => some .CS
  | 3 => some .CH
  | 4 => some .HS
  | _ => none

/-- `From<Class> for u16`. -/
def RecordClass.into_u16 : RecordClass → Nat
  | .IN => 1
  | .CS => 2
  | .CH => 3
  | .HS => 4

/-- `Class::as_bitslice`: the 16-bit MSB-first pattern of the wire code. -/
def RecordClass.as_bitslice (v : RecordClass) : List Bool := natToBits 16 v.into_u16

/-- `message::opcode::Opcode`. -/
inductive Opcode
  | Query | InverseQuery | Status
deriving DecidableEq

/-- `Into<u8> for Opcode`. -/
def Opcode.into_u8 : Opcode → Nat
  | .Query => 0
  | .InverseQuery => 1
  | .Status => 2

/-- `Opcode::as_bitvec`: the hand-maintained 4-bit patterns. -/
def Opcode.as_bitvec : Opcode → List Bool
  | .Query => [false, false, false, false]
  | .InverseQuery => [false, false, false, true]
  | .Status => [false, false, true, false]

/-- `TryFrom<u8> for Opcode`. -/
def Opcode.try_from (value : Nat) : Option Opcode :=
  match value with
  | 0 => some .Query
  | 1 => some .InverseQuery
  | 2 => some .Status
  | _ => none

/-- `message::response_code::ResponseCode`. -/
inductive ResponseCode
  | NoError | FormatError | ServerFailure | NameError | NotImplemented | Refused
deriving DecidableEq

/-- `ResponseCode::as_bitvec`: the hand-maintained 4-bit patterns. -/
def ResponseCode.as_bitvec : ResponseCode → List Bool
  | .NoError => [false, false, false, false]
  | .FormatError => [false, false, false, true]
  | .ServerFailure => [false, false, true, false]
  | .NameError => [false, false, true, true]
  | .NotImplemented => [false, true, false, false]
  | .Refused => [false, true, false, true]

/-- `TryFrom<u8> for ResponseCode`. -/
def ResponseCode.try_from (value : Nat) : Option ResponseCode :=
  match value with
  | 0 => some .NoError
  | 1 => some .FormatError
  | 2 => some .ServerFailure
  | 3 => some .NameError
  | 4 => some .NotImplemented
  | 5 => some .Refused
  | _ => none

/-- `Into<u8> for ResponseCode`. -/
def ResponseCode.into_u8 : ResponseCode → Nat
  | .NoError => 0
  | .FormatError => 1
  | .ServerFailure => 2
  | .NameError => 3
  | .NotImplemented => 4
  | .Refused => 5

/-- `message::header::MessageHeader`: the fixed 96-bit DNS header. -/
structure MessageHeader where
  id : Nat
  is_query : Bool
  opcode : Opcode
  authoritative_answer : Bool
  truncation : Bool
  recursion_desired : Bool
  recursion_available : Bool
  resp_code : ResponseCode
  question_count : Nat
  answer_count : Nat
  name_server_count : Nat
  additional_records_count : Nat
deriving DecidableEq

/-- `MessageHeader::new(id)`: query-side defaults. -/
def MessageHeader.new (id : Nat) : MessageHeader where
  id := id
  is_query := false
  opcode := .Query
  authoritative_answer := false
  truncation := false
  recursion_desired := true
  recursion_available := false
  resp_code := .NoError
  question_count := 1
  answer_count := 0
  name_server_count := 0
  additional_records_count := 0

/-- `MessageHeader::as_bitvec`: the 96-bit wire encoding; the three reserved
Z bits (`bits![0; 3]`) are emitted as three zero bits. -/
def MessageHeader.as_bitvec (h : MessageHeader) : List Bool :=
  natToBits 16 h.id ++
    ([h.is_query] ++
      (h.opcode.as_bitvec ++
        ([h.authoritative_answer] ++
          ([h.truncation] ++
            ([h.recursion_desired] ++
              ([h.recursion_available] ++
                ([false] ++
                  ([false] ++
                    ([false] ++
                      (h.resp_code.as_bitvec ++
                        (natToBits 16 h.question_count ++
                          (natToBits 16 h.answer_count ++
                            (natToBits 16 h.name_server_count ++
                              natToBits 16 h.additional_records_count)))))))))))))

/-- `MessageHeader::deserialize`: reads the 96 header bits in order.  Every
`take_*` result and every `map_res(..)` result is `.unwrap()`ed in the source
(panic on failure, modelled by `Err.unwrapPanic`), and each of the three
reserved bits goes through `assert!(!z)` (process abort, modelled by
`Err.assertPanic`). -/
def MessageHeader.deserialize (i : BitInput) : Except Err (BitInput × MessageHeader) :=
  match take_u16 i with
  | none => .error .unwrapPanic
  | some (i, id) =>
  match take_bit i with
  | none => .error .unwrapPanic
  | some (i, qr) =>
  match take_nibble i with
  | none => .error .unwrapPanic
  | some (i, opn) =>
  match Opcode.try_from opn with
  | none => .error .unwrapPanic
  | some opcode =>
  match take_bit i with
  | none => .error .unwrapPanic
  | some (i, aa) =>
  match take_bit i with
  | none => .error .unwrapPanic
  | some (i, tc) =>
  match take_bit i with
  | none => .error .unwrapPanic
  | some (i, rd) =>
  match take_bit i with
  | none => .error .unwrapPanic
  | some (i, ra) =>
  match take_bit i with
  | none => .error .unwrapPanic
  | some (i, z1) =>
  if z1 then .error .assertPanic else
  match take_bit i with
  | none => .error .unwrapPanic
  | some (i, z2) =>
  if z2 then .error .assertPanic else
  match take_bit i with
  | none => .error .unwrapPanic
  | some (i, z3) =>
  if z3 then .error .assertPanic else
  match take_nibble i with
  | none => .error .unwrapPanic
  | some (i, rcn) =>
  match ResponseCode.try_from rcn with
  | none => .error .unwrapPanic
  | some rcode =>
  match take_u16 i with
  | none => .error .unwrapPanic
  | some (i, qdcount) =>
  match take_u16 i with
  | none => .error .unwrapPanic
  | some (i, ancount) =>
  match take_u16 i with
  | none => .error .unwrapPanic
  | some (i, nscount) =>
  match take_u16 i with
  | none => .error .unwrapPanic
  | some (i, arcount) =>
  .ok (i, { id := id, is_query := qr, opcode := opcode, authoritative_answer := aa,
            truncation := tc, recursion_desired := rd, recursion_available := ra,
            resp_code := rcode, question_count := qdcount, answer_count := ancount,
            name_server_count := nscount, additional_records_count := arcount })

/-- `message::question::Question`: labels (modelled as byte strings) plus
record type and class. -/
structure Question where
  labels : List (List Nat)
  record_type : RecordType
  record_qclass : RecordClass
deriving DecidableEq

/-- `Question::new`. -/
def Question.new (labels : List (List Nat)) (record_type : RecordType)
    (record_qclass : RecordClass) : Question :=
  { labels := labels, record_type := record_type, record_qclass := record_qclass }

/-- The per-label character loop shared by `Question::as_bitvec` and
`Entry::as_bitvec`:
`label.chars().map(|ch| ch.try_into().unwrap()).for_each(|byte| ...)`.
The label's bytes are iterated as UTF-8 characters: an ASCII byte is one
character emitted as itself; a two-byte sequence with lead `C2`/`C3` is a
character in U+0080..U+00FF, still convertible to `u8` and emitted as that
code point (one byte, even though the length prefix counted two); any
character above U+00FF (lead byte `C4`..`F4`) makes the
`try_into().unwrap()` conversion panic (`Err.u8Panic`).  Byte sequences that
are not valid UTF-8 cannot arise from a `&str` and are marked
`Err.notUtf8`. -/
def emitLabelChars : List Nat → Except Err (List Bool)
  | [] => .ok []
  | b :: rest =>
    if b < 128 then
      (emitLabelChars rest).map (fun t => natToBits 8 b ++ t)
    else if b < 194 then .error .notUtf8
    else if b < 196 then
      match rest with
      | b1 :: r =>
        if 128 ≤ b1 ∧ b1 < 192 then
          (emitLabelChars r).map (fun t => natToBits 8 ((b - 192) * 64 + (b1 - 128)) ++ t)
        else .error .notUtf8
      | [] => .error .notUtf8
    else if b < 245 then .error .u8Panic
    else .error .notUtf8

/-- The label-serialization loop of `Question::as_bitvec`: for each label,
reject length `>= 64` (`MAX_LABEL_BYTES = 64` in question.rs), else emit the
8-bit length prefix and run the character loop, then continue with the next
label.  No terminating root label is emitted. -/
def Question.encodeLabels : List (List Nat) → Except Err (List Bool)
  | [] => .ok []
  | label :: rest =>
    if 64 ≤ label.length then .error .labelTooLong
    else
      match emitLabelChars label with
      | .error e => .error e
      | .ok bits =>
        match Question.encodeLabels rest with
        | .error e => .error e
        | .ok tail => .ok ((natToBits 8 label.length ++ bits) ++ tail)

/-- `Question::as_bitvec`: labels, then the 16-bit type and class patterns. -/
def Question.as_bitvec (q : Question) : Except Err (List Bool) :=
  match Question.encodeLabels q.labels with
  | .error e => .error e
  | .ok bs => .ok (bs ++ (q.record_type.as_bitslice ++ q.record_qclass.as_bitslice))

/-- `message::entry::Entry`: the structure duplicated from `Question`. -/
structure Entry where
  labels : List (List Nat)
  record_type : RecordType
  record_qclass : RecordClass
deriving DecidableEq

/-- The label-serialization loop of `Entry::as_bitvec`.  Unlike `Question`,
it first runs `u8::try_from(len).unwrap()` (panic when the length exceeds
255) and only then rejects lengths `>= 64`; the per-character emission is the
same `chars()`-based loop. -/
def Entry.encodeLabels : List (List Nat) → Except Err (List Bool)
  | [] => .ok []
  | label :: rest =>
    if 255 < label.length then .error .u8Panic
    else if 64 ≤ label.length then .error .labelTooLong
    else
      match emitLabelChars label with
      | .error e => .error e
      | .ok bits =>
        match Entry.encodeLabels rest with
        | .error e => .error e
        | .ok tail => .ok ((natToBits 8 label.length ++ bits) ++ tail)

/-- `Entry::as_bitvec`. -/
def Entry.as_bitvec (q : Entry) : Except Err (List Bool) :=
  match Entry.encodeLabels q.labels with
  | .error e => .error e
  | .ok bs => .ok (bs ++ (q.record_type.as_bitslice ++ q.record_qclass.as_bitslice))

/-- UTF-8 validity of a byte sequence, as checked by `std::str::from_utf8`:
1-byte ASCII, well-formed 2-4 byte sequences, no overlongs, no surrogates,
nothing above U+10FFFF. -/
def validUtf8 : List Nat → Bool
  | [] => true
  | b :: rest =>
    if b < 128 then validUtf8 rest
    else if b < 194 then false
    else if b < 224 then
      match rest with
      | b1 :: r => decide (128 ≤ b1 ∧ b1 < 192) && validUtf8 r
      | [] => false
    else if b < 240 then
      match rest with
      | b1 :: b2 :: r =>
        (if b = 224 then decide (160 ≤ b1 ∧ b1 < 192)
         else if b = 237 then decide (128 ≤ b1 ∧ b1 < 160)
         else decide (128 ≤ b1 ∧ b1 < 192)) &&
          decide (128 ≤ b2 ∧ b2 < 192) && validUtf8 r
      | _ => false
    else if b < 245 then
      match rest with
      | b1 :: b2 :: b3 :: r =>
        (if b = 240 then decide (144 ≤ b1 ∧ b1 < 192)
         else if b = 244 then decide (128 ≤ b1 ∧ b1 < 144)
         else decide (128 ≤ b1 ∧ b1 < 192)) &&
          decide (128 ≤ b2 ∧ b2 < 192) && decide (128 ≤ b3 ∧ b3 < 192) && validUtf8 r
      | _ => false
    else false

/-- `Question::parse_label`: read one 8-bit length (error when `>= 64`), then
that many bytes (error on underrun), then check UTF-8 validity; returns
`(remaining bytes, label)`.  This function returns its `nom` errors rather
than panicking. -/
def Question.parse_label (i : List Nat) : Except Err (List Nat × List Nat) :=
  match i with
  | [] => .error .parseErr
  | len :: rest =>
    if 64 ≤ len then .error .parseErr
    else if rest.length < len then .error .parseErr
    else if validUtf8 (rest.take len) then .ok (rest.drop len, rest.take len)
    else .error .parseErr

/-- The `loop` inside `Question::parse_labels_then_zero`: parse a label
(`.unwrap()`, so a parse failure is a panic), push it (the zero-length root
label included), stop when the parsed label is empty.  On success the
returned `BitInput` is `(remaining, remaining.len())` — the source reuses the
remaining byte count as the bit offset. -/
def Question.parseLabelsLoop (i : List Nat) (labels : List (List Nat)) :
    Except Err (BitInput × List (List Nat)) :=
  match h : Question.parse_label i with
  | .error _ => .error .unwrapPanic
  | .ok (rest, label) =>
    if label.length = 0 then .ok ((rest, rest.length), labels ++ [label])
    else Question.parseLabelsLoop rest (labels ++ [label])
termination_by i.length
decreasing_by
  simp only [Question.parse_label] at h
  cases i with
  | nil => exact absurd h (by simp)
  | cons len r =>
    simp only at h
    split at h
    · exact absurd h (by simp)
    · split at h
      · exact absurd h (by simp)
      · split at h
        · simp only [Except.ok.injEq, Prod.mk.injEq] at h
          obtain ⟨hrest, -⟩ := h
          subst hrest
          simp [List.length_drop]
          omega
        · exact absurd h (by simp)

/-- `Question::parse_labels_then_zero`: runs the label loop on the byte
buffer of the bit input (the incoming bit offset is ignored by the source). -/
def Question.parse_labels_then_zero (i : BitInput) :
    Except Err (BitInput × List (List Nat)) :=
  Question.parseLabelsLoop i.1 []

/-- `Question::deserialize`: parse labels, then one 4-bit nibble mapped
through `RecordType::try_from` and one 4-bit nibble mapped through
`Class::try_from`; every step is `.unwrap()`ed (panic on failure). -/
def Question.deserialize (i : BitInput) : Except Err (BitInput × Question) :=
  match Question.parse_labels_then_zero i with
  | .error e => .error e
  | .ok (i, labels) =>
  match take_nibble i with
  | none => .error .unwrapPanic
  | some (i, tn) =>
  match RecordType.try_from tn with
  | none => .error .unwrapPanic
  | some record_type =>
  match take_nibble i with
  | none => .error .unwrapPanic
  | some (i, cn) =>
  match RecordClass.try_from cn with
  | none => .error .unwrapPanic
  | some record_qclass =>
  .ok (i, { labels := labels, record_type := record_type, record_qclass := record_qclass })

/-- `str::split('.')` on a byte string: split on every `'.'` (byte 46),
keeping empty pieces; the empty string yields one empty piece. -/
def splitOnDot : List Nat → List (List Nat)
  | [] => [[]]
  | b :: rest =>
    match splitOnDot rest with
    | h :: t => if b = 46 then [] :: h :: t else (b :: h) :: t
    | [] => if b = 46 then [[], []] else [[b]]

/-- `message::message::Message`: header plus question sequence. -/
structure Message where
  header : MessageHeader
  question : List Question
deriving DecidableEq

/-- `Message::new`: reject a domain string longer than `MAX_NAME_BYTES = 255`
bytes, split it on `'.'`, reject any label longer than
`MAX_LABEL_BYTES = 63` bytes, else build the default header and a single
question. -/
def Message.new (id : Nat) (domain_name : List Nat) (record_type : RecordType)
    (record_class : RecordClass) : Except Err Message :=
  if 255 < domain_name.length then .error .nameTooLong
  else
    let labels := splitOnDot domain_name
    if labels.any (fun label => 63 < label.length) then .error .labelTooLong
    else .ok { header := MessageHeader.new id,
               question := [Question.new labels record_type record_class] }

/-- The question-serialization loop of `Message::as_bitvec`. -/
def Message.encodeQuestions : List Question → Except Err (List Bool)
  | [] => .ok []
  | q :: rest =>
    match q.as_bitvec with
    | .error e => .error e
    | .ok qb =>
      match Message.encodeQuestions rest with
      | .error e => .error e
      | .ok tail => .ok (qb ++ tail)

/-- `Message::as_bitvec`: header bits followed by each question's bits. -/
def Message.as_bitvec (m : Message) : Except Err (List Bool) :=
  match Message.encodeQuestions m.question with
  | .error e => .error e
  | .ok qb => .ok (m.header.as_bitvec ++ qb)

/-- `Message::as_vec`: pack the bit sequence into bytes (the source's
`.expect` on a serialization error is a panic, kept as the error case). -/
def Message.as_vec (m : Message) : Except Err (List Nat) :=
  match m.as_bitvec with
  | .error e => .error e
  | .ok bs => .ok (bitsToBytes bs)

/-- The "total encoded length" of a domain name as the spec defines it
(§3 DomainName): every label of the split name with its 1-byte length
prefix, plus the terminating zero-length root label.  This is a claim-side
measure used to state the C6 boundary; the source never computes it. -/
def specEncodedNameLength (domain_name : List Nat) : Nat :=
  ((splitOnDot domain_name).map (fun label => 1 + label.length)).sum + 1

theorem natToBits_length (w n : Nat) : (natToBits w n).length = w := by
  induction w generalizing n with
  | zero => rfl
  | succ w ih => simp [natToBits, ih]

theorem bitsToNat_foldl_acc : ∀ (bs : List Bool) (acc : Nat),
    bs.foldl (fun a b => 2 * a + (if b then 1 else 0)) acc
      = acc * 2 ^ bs.length + bs.foldl (fun a b => 2 * a + (if b then 1 else 0)) 0 := by
  intro bs
  induction bs with
  | nil => intro acc; simp
  | cons b rest ih =>
    intro acc
    simp only [List.foldl, List.length_cons]
    rw [ih (2 * acc + (if b then 1 else 0)), ih (2 * 0 + (if b then 1 else 0))]
    rw [pow_succ]
    ring

theorem bitsToNat_cons (b : Bool) (rest : List Bool) :
    bitsToNat (b :: rest) = (if b then 1 else 0) * 2 ^ rest.length + bitsToNat rest := by
  simp only [bitsToNat, List.foldl]
  rw [bitsToNat_foldl_acc]
  simp

theorem bitsToNat_lt (bs : List Bool) : bitsToNat bs < 2 ^ bs.length := by
  induction bs with
  | nil => simp [bitsToNat]
  | cons b rest ih =>
    rw [bitsToNat_cons, List.length_cons, pow_succ]
    cases b <;> simp <;> omega

theorem bitsToNat_natToBits (w n : Nat) : bitsToNat (natToBits w n) = n % 2 ^ w := by
  induction w with
  | zero => simp [natToBits, bitsToNat, Nat.mod_one]
  | succ w ih =>
    rw [natToBits, bitsToNat_cons, natToBits_length, ih]
    have hd : (if (decide (n / 2 ^ w % 2 = 1)) = true then 1 else 0) = n / 2 ^ w % 2 := by
      rcases Nat.mod_two_eq_zero_or_one (n / 2 ^ w) with h | h <;> simp [h]
    rw [hd, pow_succ, Nat.mod_mul]
    ring

theorem natToBits_add_mul (w a n : Nat) : natToBits w (a * 2 ^ w + n) = natToBits w n := by
  induction w generalizing a with
  | zero => rfl
  | succ w ih =>
    have h2 : a * 2 ^ (w + 1) + n = (2 * a) * 2 ^ w + n := by ring
    rw [natToBits, natToBits, h2, ih (2 * a)]
    have hdiv : ((2 * a) * 2 ^ w + n) / 2 ^ w = n / 2 ^ w + 2 * a := by
      rw [Nat.add_comm, Nat.mul_comm]
      exact Nat.add_mul_div_left n (2 * a) (Nat.pos_pow_of_pos w (by norm_num))
    have hmod : ((2 * a) * 2 ^ w + n) / 2 ^ w % 2 = n / 2 ^ w % 2 := by
      rw [hdiv]; omega
    rw [hmod]

theorem natToBits_bitsToNat : ∀ (bs : List Bool), natToBits bs.length (bitsToNat bs) = bs := by
  intro bs
  induction bs with
  | nil => rfl
  | cons b rest ih =>
    rw [List.length_cons, bitsToNat_cons, natToBits]
    have hlt := bitsToNat_lt rest
    have hdiv : ((if b then 1 else 0) * 2 ^ rest.length + bitsToNat rest) / 2 ^ rest.length
        = (if b then 1 else 0) := by
      rw [Nat.add_comm, Nat.mul_comm, Nat.add_mul_div_left _ _ (Nat.pos_pow_of_pos _ (by norm_num)),
        Nat.div_eq_of_lt hlt, Nat.zero_add]
    rw [hdiv, natToBits_add_mul, ih]
    cases b <;> simp

theorem bitsOfBytes_length (l : List Nat) : (bitsOfBytes l).length = 8 * l.length := by
  induction l with
  | nil => rfl
  | cons b r ih => simp [bitsOfBytes, natToBits_length, ih]; ring

theorem drop_append_left {α : Type} (l1 l2 : List α) (n : Nat) :
    (l1 ++ l2).drop (l1.length + n) = l2.drop n := by
  induction l1 with
  | nil => simp
  | cons a t ih =>
    have h : t.length + 1 + n = (t.length + n) + 1 := by omega
    rw [List.length_cons, h, List.cons_append, List.drop_succ_cons, ih]

theorem bitsOfBytes_drop (k : Nat) (l : List Nat) :
    bitsOfBytes (l.drop k) = (bitsOfBytes l).drop (8 * k) := by
  induction k generalizing l with
  | zero => simp
  | succ k ih =>
    cases l with
    | nil => simp [bitsOfBytes]
    | cons b r =>
      rw [List.drop_succ_cons, ih]
      show (bitsOfBytes r).drop (8 * k) = (natToBits 8 b ++ bitsOfBytes r).drop (8 * (k + 1))
      have h : 8 * (k + 1) = (natToBits 8 b).length + 8 * k := by
        rw [natToBits_length]; ring
      rw [h, drop_append_left]

theorem bitsOfBytes_eq_nil {l : List Nat} (h : bitsOfBytes l = []) : l = [] := by
  cases l with
  | nil => rfl
  | cons b r =>
    exfalso
    have := congrArg List.length h
    simp [bitsOfBytes, natToBits_length] at this

theorem bitsOfBytes_bitsToBytes : ∀ (bs : List Bool), bs.length % 8 = 0 →
    bitsOfBytes (bitsToBytes bs) = bs := by
  intro bs
  induction bs using bitsToBytes.induct with
  | case1 => intro _; rfl
  | case2 b1 b2 b3 b4 b5 b6 b7 b8 rest ih =>
    intro h8
    have hr : rest.length % 8 = 0 := by
      simp only [List.length_cons] at h8; omega
    show natToBits 8 (bitsToNat [b1, b2, b3, b4, b5, b6, b7, b8]) ++ bitsOfBytes (bitsToBytes rest)
        = b1 :: b2 :: b3 :: b4 :: b5 :: b6 :: b7 :: b8 :: rest
    rw [ih hr]
    have := natToBits_bitsToNat [b1, b2, b3, b4, b5, b6, b7, b8]
    simp only [List.length_cons, List.length_nil] at this
    rw [show (0 + 1 + 1 + 1 + 1 + 1 + 1 + 1 + 1 : Nat) = 8 from rfl] at this
    rw [this]
    rfl
  | case3 bs h1 h2 =>
    intro h8
    exfalso
    rcases bs with _ | ⟨a1, _ | ⟨a2, _ | ⟨a3, _ | ⟨a4, _ | ⟨a5, _ | ⟨a6, _ | ⟨a7, _ | ⟨a8, t⟩⟩⟩⟩⟩⟩⟩⟩
    · exact h1 rfl
    · norm_num at h8
    · norm_num at h8
    · norm_num at h8
    · norm_num at h8
    · norm_num at h8
    · norm_num at h8
    · norm_num at h8
    · exact h2 a1 a2 a3 a4 a5 a6 a7 a8 t rfl

theorem takeBits_step (c : Nat) (hc : 0 < c) {i : BitInput} {pre rest : List Bool}
    (happ : absBits i = pre ++ rest) (hpre : pre.length = c) :
    takeBits c i = some ((i.1.drop ((i.2 + c) / 8), (i.2 + c) % 8), bitsToNat pre)
      ∧ absBits (i.1.drop ((i.2 + c) / 8), (i.2 + c) % 8) = rest := by
  obtain ⟨bs, off⟩ := i
  simp only [absBits] at happ ⊢
  have hlen : (bitsOfBytes bs).length = 8 * bs.length := bitsOfBytes_length bs
  have hcr : c + rest.length = 8 * bs.length - off := by
    have h := congrArg List.length happ
    simp only [List.length_drop, List.length_append, hlen, hpre] at h
    omega
  have hcond : ¬ (8 * bs.length < c + off) := by omega
  refine ⟨?_, ?_⟩
  · simp only [takeBits, if_neg hcond]
    rw [happ, ← hpre, List.take_left]
  · show (bitsOfBytes (bs.drop ((off + c) / 8))).drop ((off + c) % 8) = rest
    rw [bitsOfBytes_drop, List.drop_drop]
    have hq : 8 * ((off + c) / 8) + (off + c) % 8 = off + c := by omega
    rw [hq, ← List.drop_drop, happ, ← hpre, List.drop_left]

theorem opcode_as_bitvec_length (o : Opcode) : o.as_bitvec.length = 4 := by
  cases o <;> rfl

theorem rcode_as_bitvec_length (r : ResponseCode) : r.as_bitvec.length = 4 := by
  cases r <;> rfl

theorem opcode_try_from_bits (o : Opcode) :
    Opcode.try_from (bitsToNat o.as_bitvec) = some o := by
  cases o <;> rfl

theorem rcode_try_from_bits (r : ResponseCode) :
    ResponseCode.try_from (bitsToNat r.as_bitvec) = some r := by
  cases r <;> rfl

theorem bitsToNat_singleton_bne (b : Bool) : (bitsToNat [b] != 0) = b := by
  cases b <;> rfl

theorem header_as_bitvec_length (h : MessageHeader) : h.as_bitvec.length = 96 := by
  simp [MessageHeader.as_bitvec, List.length_append, natToBits_length,
    opcode_as_bitvec_length, rcode_as_bitvec_length]

theorem takeBits_step1 {i : BitInput} {b : Bool} {rest : List Bool}
    (happ : absBits i = b :: rest) :
    takeBits 1 i = some ((i.1.drop ((i.2 + 1) / 8), (i.2 + 1) % 8), bitsToNat [b])
      ∧ absBits (i.1.drop ((i.2 + 1) / 8), (i.2 + 1) % 8) = rest :=
  @takeBits_step 1 (by norm_num) i [b] rest happ rfl

theorem splitOnDot_no_dot : ∀ (l : List Nat), 46 ∉ l → splitOnDot l = [l] := by
  intro l
  induction l with
  | nil => intro _; rfl
  | cons b r ih =>
    intro h
    have hb : ¬ b = 46 := by
      intro hb
      exact h (hb ▸ List.mem_cons_self b r)
    have hr : 46 ∉ r := fun hm => h (List.mem_cons_of_mem b hm)
    simp only [splitOnDot, ih hr]
    rw [if_neg hb]

theorem parse_label_length {i rest label : List Nat}
    (h : Question.parse_label i = .ok (rest, label)) : rest.length < i.length := by
  simp only [Question.parse_label] at h
  cases i with
  | nil => exact absurd h (by simp)
  | cons len r =>
    simp only at h
    split at h
    · exact absurd h (by simp)
    · split at h
      · exact absurd h (by simp)
      · split at h
        · simp only [Except.ok.injEq, Prod.mk.injEq] at h
          obtain ⟨hrest, -⟩ := h
          subst hrest
          simp [List.length_drop]
          omega
        · exact absurd h (by simp)

theorem emitLabelChars_ascii : ∀ (l : List Nat), (∀ b ∈ l, b < 128) →
    emitLabelChars l = .ok (bitsOfBytes l) := by
  intro l
  induction l with
  | nil => intro _; rfl
  | cons b r ih =>
    intro h
    have hb : b < 128 := h b (List.mem_cons_self b r)
    have hr : ∀ x ∈ r, x < 128 := fun x hx => h x (List.mem_cons_of_mem b hx)
    rw [emitLabelChars.eq_def]
    simp [if_pos hb, ih hr, bitsOfBytes, Except.map]

theorem encodeLabels_entry_eq_question : ∀ (labels : List (List Nat)),
    (∀ l ∈ labels, l.length ≤ 63) →
    Entry.encodeLabels labels = Question.encodeLabels labels := by
  intro labels
  induction labels with
  | nil => intro _; rfl
  | cons l rest ih =>
    intro h
    have hl : l.length ≤ 63 := h l (List.mem_cons_self l rest)
    have hr : ∀ x ∈ rest, x.length ≤ 63 := fun x hx => h x (List.mem_cons_of_mem l hx)
    simp only [Entry.encodeLabels, Question.encodeLabels]
    rw [if_neg (by omega), if_neg (by omega), if_neg (by omega)]
    simp only [ih hr]

theorem parseLabelsLoop_last : ∀ (n : Nat) (i : List Nat), i.length ≤ n →
    ∀ (acc : List (List Nat)) (r : BitInput) (ls : List (List Nat)),
    Question.parseLabelsLoop i acc = .ok (r, ls) →
    ls ≠ [] ∧ ls.getLast? = some [] := by
  intro n
  induction n with
  | zero =>
    intro i hle acc r ls h
    have hi : i = [] := List.length_eq_zero.mp (Nat.le_zero.mp hle)
    subst hi
    rw [Question.parseLabelsLoop] at h
    simp [Question.parse_label] at h
  | succ n ih =>
    intro i hle acc r ls h
    rw [Question.parseLabelsLoop] at h
    split at h
    · exact absurd h (by simp)
    · rename_i rest label hp
      split at h
      · rename_i hz
        simp only [Except.ok.injEq, Prod.mk.injEq] at h
        obtain ⟨-, hls⟩ := h
        have hlabel : label = [] := List.length_eq_zero.mp hz
        subst hlabel hls
        constructor
        · simp
        · rw [List.getLast?_concat]
      · have hlt : rest.length < i.length := parse_label_length hp
        exact ih rest (by omega) (acc ++ [label]) r ls h

/-- Claim C1 (counterexample): building `Message::new(1, "google.com", A, IN)`
and encoding with `Message::as_vec` does NOT yield the claimed 28-byte
sequence `00 01 00 00 01 00 00 00 00 00 00 00 06 67 6f 6f 67 6c 65 03 63 6f
6d 00 00 01 00 01`: the code sets the recursion-desired flag (header byte 2 is
`01`) and emits no terminating root label. -/
theorem c1_google_counterexample :
    (Message.new 1 [103, 111, 111, 103, 108, 101, 46, 99, 111, 109]
        RecordType.A RecordClass.IN).bind Message.as_vec
      ≠ Except.ok [0, 1, 0, 0, 1, 0, 0, 0, 0, 0, 0, 0,
          6, 103, 111, 111, 103, 108, 101, 3, 99, 111, 109, 0, 0, 1, 0, 1] := by
  decide

/-- Claim C1 (amended): `Message::new(1, "google.com", A, IN)` followed by
`Message::as_vec` yields exactly the 27-byte sequence
`00 01 01 00 00 01 00 00 00 00 00 00` (header with the recursion-desired bit
set) followed by `06 67 6f 6f 67 6c 65 03 63 6f 6d 00 01 00 01` (labels
"google" and "com" with NO terminating root label, then QTYPE=1, QCLASS=1). -/
theorem c1_google_encoding :
    (Message.new 1 [103, 111, 111, 103, 108, 101, 46, 99, 111, 109]
        RecordType.A RecordClass.IN).bind Message.as_vec
      = Except.ok [0, 1, 1, 0, 0, 1, 0, 0, 0, 0, 0, 0,
          6, 103, 111, 111, 103, 108, 101, 3, 99, 111, 109, 0, 1, 0, 1] := by
  decide

/-- Claim C2 (code bug): on a 96-bit header whose first reserved Z bit is
set (byte 3 = `0x40`), `MessageHeader::deserialize` hits `assert!(!z)` and
panics (aborting the process); it does not return a `MalformedReserved`
decode error as the spec requires. -/
theorem c2_reserved_bit_asserts :
    MessageHeader.deserialize ([0, 1, 1, 64, 0, 1, 0, 0, 0, 0, 0, 0], 0)
      = .error .assertPanic := by
  decide

/-- Claim C3 (code bug): after the domain-name labels, `Question::deserialize`
reads the record type and class as 4-bit nibbles, not 16-bit fields.  On the
input bytes `00 04 40` (root label, then 16 remaining bits) decoding succeeds
by consuming only 4 + 4 bits — nibble `0001` at the corrupted bit offset 2
gives `RecordType::A` and the next nibble `0001` gives `Class::IN` — where
two 16-bit reads would have required 32 bits. -/
theorem c3_question_decode_uses_nibbles :
    Question.deserialize (([0, 4, 64] : List Nat), 0)
      = .ok ((([64], 2) : BitInput),
          { labels := [[]], record_type := RecordType.A, record_qclass := RecordClass.IN }) := by
  unfold Question.deserialize Question.parse_labels_then_zero
  rw [Question.parseLabelsLoop]
  decide

/-- Claim C4: for every variant of `RecordType`, `Class`, `Opcode` and
`ResponseCode`, decoding the encoded code returns the variant:
`TryFrom(Into(v)) == Ok(v)`. -/
theorem c4_enum_roundtrip :
    (∀ v : RecordType, RecordType.try_from (RecordType.into_u16 v) = some v) ∧
    (∀ v : RecordClass, RecordClass.try_from (RecordClass.into_u16 v) = some v) ∧
    (∀ v : Opcode, Opcode.try_from (Opcode.into_u8 v) = some v) ∧
    (∀ v : ResponseCode, ResponseCode.try_from (ResponseCode.into_u8 v) = some v) := by
  refine ⟨?_, ?_, ?_, ?_⟩ <;> intro v <;> cases v <;> rfl

/-- Claim C5: for every header whose 16-bit fields are in range (arbitrary id
and section counts, arbitrary flags, any valid opcode and response code),
deserializing the byte-packed 96-bit encoding returns the header unchanged:
`MessageHeader::deserialize(as_bitvec(h)) == h`.  Headers built by
`MessageHeader::new(id)` with a 16-bit id are an instance. -/
theorem c5_header_roundtrip (h : MessageHeader) (hid : h.id < 2 ^ 16)
    (hqd : h.question_count < 2 ^ 16) (han : h.answer_count < 2 ^ 16)
    (hns : h.name_server_count < 2 ^ 16) (har : h.additional_records_count < 2 ^ 16) :
    MessageHeader.deserialize (bitsToBytes h.as_bitvec, 0) = .ok (([], 0), h) := by
  have hshape : absBits ((bitsToBytes h.as_bitvec, 0) : BitInput)
      = natToBits 16 h.id ++ ([h.is_query] ++ (h.opcode.as_bitvec ++
          ([h.authoritative_answer] ++ ([h.truncation] ++ ([h.recursion_desired] ++
            ([h.recursion_available] ++ ([false] ++ ([false] ++ ([false] ++
              (h.resp_code.as_bitvec ++ (natToBits 16 h.question_count ++
                (natToBits 16 h.answer_count ++ (natToBits 16 h.name_server_count ++
                  natToBits 16 h.additional_records_count))))))))))))) := by
    simp only [absBits, List.drop_zero]
    rw [bitsOfBytes_bitsToBytes h.as_bitvec (by rw [header_as_bitvec_length])]
    rfl
  obtain ⟨e1, a1⟩ := takeBits_step 16 (by norm_num) hshape (natToBits_length 16 h.id)
  rw [bitsToNat_natToBits, Nat.mod_eq_of_lt hid] at e1
  norm_num [List.drop_drop] at e1 a1
  obtain ⟨e2, a2⟩ := takeBits_step1 a1
  norm_num [List.drop_drop] at e2 a2
  obtain ⟨e3, a3⟩ := takeBits_step 4 (by norm_num) a2 (opcode_as_bitvec_length h.opcode)
  norm_num [List.drop_drop] at e3 a3
  obtain ⟨e4, a4⟩ := takeBits_step1 a3
  norm_num [List.drop_drop] at e4 a4
  obtain ⟨e5, a5⟩ := takeBits_step1 a4
  norm_num [List.drop_drop] at e5 a5
  obtain ⟨e6, a6⟩ := takeBits_step1 a5
  norm_num [List.drop_drop] at e6 a6
  obtain ⟨e7, a7⟩ := takeBits_step1 a6
  norm_num [List.drop_drop] at e7 a7
  obtain ⟨e8, a8⟩ := takeBits_step1 a7
  norm_num [List.drop_drop] at e8 a8
  obtain ⟨e9, a9⟩ := takeBits_step1 a8
  norm_num [List.drop_drop] at e9 a9
  obtain ⟨e10, a10⟩ := takeBits_step1 a9
  norm_num [List.drop_drop] at e10 a10
  obtain ⟨e11, a11⟩ := takeBits_step 4 (by norm_num) a10 (rcode_as_bitvec_length h.resp_code)
  norm_num [List.drop_drop] at e11 a11
  obtain ⟨e12, a12⟩ := takeBits_step 16 (by norm_num) a11 (natToBits_length 16 h.question_count)
  rw [bitsToNat_natToBits, Nat.mod_eq_of_lt hqd] at e12
  norm_num [List.drop_drop] at e12 a12
  obtain ⟨e13, a13⟩ := takeBits_step 16 (by norm_num) a12 (natToBits_length 16 h.answer_count)
  rw [bitsToNat_natToBits, Nat.mod_eq_of_lt han] at e13
  norm_num [List.drop_drop] at e13 a13
  obtain ⟨e14, a14⟩ := takeBits_step 16 (by norm_num) a13 (natToBits_length 16 h.name_server_count)
  rw [bitsToNat_natToBits, Nat.mod_eq_of_lt hns] at e14
  norm_num [List.drop_drop] at e14 a14
  obtain ⟨e15, a15⟩ := takeBits_step 16 (by norm_num) (a14.trans (List.append_nil _).symm)
    (natToBits_length 16 h.additional_records_count)
  rw [bitsToNat_natToBits, Nat.mod_eq_of_lt har] at e15
  norm_num [List.drop_drop] at e15 a15
  have hnil : (bitsToBytes h.as_bitvec).drop 12 = [] := by
    apply bitsOfBytes_eq_nil
    simpa [absBits] using a15
  simp only [MessageHeader.deserialize, take_u16, take_nibble, take_bit,
    e1, e2, e3, e4, e5, e6, e7, e8, e9, e10, e11, e12, e13, e14, e15,
    bitsToNat_singleton_bne, opcode_try_from_bits, rcode_try_from_bits, hnil]
  simp

/-- Claim C5 (witness): the round-trip at the concrete header
`MessageHeader::new(1)`. -/
theorem c5_header_roundtrip_witness :
    MessageHeader.deserialize (bitsToBytes (MessageHeader.new 1).as_bitvec, 0)
      = .ok (([], 0), MessageHeader.new 1) :=
  c5_header_roundtrip (MessageHeader.new 1) (by decide) (by decide) (by decide)
    (by decide) (by decide)

/-- Claim C6 (code bug): `Message::new` checks the raw domain-string length
against 255, not the encoded name length.  A name of four labels
(63+63+63+61 bytes, string length 253) whose spec-defined encoded length is
exactly 255 is accepted — but so is the four-label name 63+63+63+62 (string
length 254) whose encoded length is 256, which the claim requires to fail
with `NameTooLong`. -/
theorem c6_encoded_length_boundary :
    exceptIsOk (Message.new 1 (List.replicate 63 97 ++ [46] ++ List.replicate 63 97 ++ [46] ++
        List.replicate 63 97 ++ [46] ++ List.replicate 61 97) RecordType.A RecordClass.IN) = true
    ∧ specEncodedNameLength (List.replicate 63 97 ++ [46] ++ List.replicate 63 97 ++ [46] ++
        List.replicate 63 97 ++ [46] ++ List.replicate 61 97) = 255
    ∧ exceptIsOk (Message.new 1 (List.replicate 63 97 ++ [46] ++ List.replicate 63 97 ++ [46] ++
        List.replicate 63 97 ++ [46] ++ List.replicate 62 97) RecordType.A RecordClass.IN) = true
    ∧ specEncodedNameLength (List.replicate 63 97 ++ [46] ++ List.replicate 63 97 ++ [46] ++
        List.replicate 63 97 ++ [46] ++ List.replicate 62 97) = 256 :=
  ⟨by decide, by decide, by decide, by decide⟩

/-- Claim C7: a dot-free label of exactly 63 single-byte (ASCII) characters
passes both the `Message::new` validation and the `Question::as_bitvec`
serialization (63 bytes, every character convertible to `u8`), while at 64
bytes both fail with the label-too-long validation error — the length checks
fire before the character loop, so the failure half holds regardless of byte
content. -/
theorem c7_label_boundary (label : List Nat) (rt : RecordType) (c : RecordClass)
    (hnd : 46 ∉ label) (hbyte : ∀ b ∈ label, b < 128) :
    (label.length = 63 →
      exceptIsOk (Message.new 7 label rt c) = true ∧
      exceptIsOk (Question.as_bitvec (Question.new [label] rt c)) = true) ∧
    (label.length = 64 →
      Message.new 7 label rt c = .error .labelTooLong ∧
      Question.as_bitvec (Question.new [label] rt c) = .error .labelTooLong) := by
  constructor
  · intro h63
    constructor
    · simp [Message.new, splitOnDot_no_dot label hnd, h63, exceptIsOk]
    · simp [Question.as_bitvec, Question.new, Question.encodeLabels, h63, exceptIsOk,
        emitLabelChars_ascii label hbyte]
  · intro h64
    constructor
    · simp [Message.new, splitOnDot_no_dot label hnd, h64]
    · simp [Question.as_bitvec, Question.new, Question.encodeLabels, h64]

/-- Claim C7 (witness): the boundary at the concrete labels `"a" * 63` and
`"a" * 64`. -/
theorem c7_label_boundary_witness :
    exceptIsOk (Message.new 7 (List.replicate 63 97) RecordType.A RecordClass.IN) = true ∧
    Question.as_bitvec (Question.new [List.replicate 64 97] RecordType.A RecordClass.IN)
      = .error .labelTooLong :=
  ⟨((c7_label_boundary (List.replicate 63 97) RecordType.A RecordClass.IN
        (by decide) (by decide)).1 (by decide)).1,
   ((c7_label_boundary (List.replicate 64 97) RecordType.A RecordClass.IN
        (by decide) (by decide)).2 (by decide)).2⟩

/-- Claim C8 (code bug): on a header whose opcode nibble is `1111` (byte 2 =
`0x78`), `Opcode::try_from(15)` correctly fails, but
`MessageHeader::deserialize` calls `.unwrap()` on the `map_res` result and
panics instead of returning the unsupported-code error to the caller. -/
theorem c8_opcode_fifteen_panics :
    MessageHeader.deserialize ([0, 0, 120, 0, 0, 0, 0, 0, 0, 0, 0, 0], 0)
      = .error .unwrapPanic := by
  decide

/-- Claim C9: for every label list whose labels are at most 63 bytes of
single-byte characters, `Entry::as_bitvec` and `Question::as_bitvec` produce
identical bit sequences for any record type and class. -/
theorem c9_entry_question_equivalent (labels : List (List Nat)) (rt : RecordType)
    (c : RecordClass) (hlen : ∀ l ∈ labels, l.length ≤ 63)
    (hbyte : ∀ l ∈ labels, ∀ b ∈ l, b < 128) :
    Entry.as_bitvec { labels := labels, record_type := rt, record_qclass := c }
      = Question.as_bitvec { labels := labels, record_type := rt, record_qclass := c } := by
  simp only [Entry.as_bitvec, Question.as_bitvec,
    encodeLabels_entry_eq_question labels hlen]

/-- Claim C9 (witness): the equivalence at the concrete label list
`["g"]` with type A and class IN. -/
theorem c9_entry_question_equivalent_witness :
    Entry.as_bitvec { labels := [[103]], record_type := RecordType.A, record_qclass := RecordClass.IN }
      = Question.as_bitvec { labels := [[103]], record_type := RecordType.A, record_qclass := RecordClass.IN } :=
  c9_entry_question_equivalent [[103]] RecordType.A RecordClass.IN (by decide) (by decide)

/-- Claim C10: whenever `Question::parse_labels_then_zero` returns
successfully, the returned label list is non-empty and its last element is
the zero-length root label (the loop pushes the empty label before
stopping). -/
theorem c10_labels_end_with_root (i : BitInput) (r : BitInput) (labels : List (List Nat))
    (h : Question.parse_labels_then_zero i = .ok (r, labels)) :
    labels ≠ [] ∧ labels.getLast? = some [] :=
  parseLabelsLoop_last i.1.length i.1 (le_refl _) [] r labels h

/-- Claim C10 (witness): parsing the single root byte `00` yields the label
list `[""]`, which is non-empty and ends with the empty label. -/
theorem c10_labels_end_with_root_witness :
    ([[]] : List (List Nat)) ≠ [] ∧ ([[]] : List (List Nat)).getLast? = some [] :=
  c10_labels_end_with_root (([0] : List Nat), 0) (([] : List Nat), 0) [[]]
    (by unfold Question.parse_labels_then_zero; rw [Question.parseLabelsLoop]; decide)
